import Mathlib

/-!
Shallow embedding of `src/vec.rs` (`MyVec<T>`), the manual growable-array
implementation of the repository.  The raw buffer of `capacity` slots whose
first `len` slots are initialized is modelled by the list `data` of those
initialized elements together with the number `capacity`; `len` is
`data.length`.  Panics are modelled by `Except`, with the error value
carrying the panic message and the state of the vector at the moment of
the panic.
-/

universe u

structure MyVec (α : Type u) : Type u where
  data : List α
  capacity : Nat
deriving Repr, DecidableEq

namespace MyVec

variable {α : Type u}

/-- `MyVec::new`: empty vector, no allocation (capacity 0). -/
def new : MyVec α := ⟨[], 0⟩

/-- `MyVec::with_capacity`: empty vector with `capacity` preallocated slots
(the source returns `new()` when `capacity == 0`). -/
def with_capacity (capacity : Nat) : MyVec α :=
  if capacity = 0 then new else ⟨[], capacity⟩

/-- `MyVec::len`: number of live elements. -/
def len (v : MyVec α) : Nat := v.data.length

/-- `MyVec::is_empty`. -/
def is_empty (v : MyVec α) : Bool := v.len == 0

/-- `MyVec::grow`: new capacity is 1 when the old capacity is 0, twice the
old capacity otherwise; the live elements are preserved by `realloc`. -/
def grow (v : MyVec α) : MyVec α :=
  let new_capacity := if v.capacity = 0 then 1 else v.capacity * 2
  ⟨v.data, new_capacity⟩

/-- `MyVec::grow_if_needed`: grow exactly when `len == capacity`. -/
def grow_if_needed (v : MyVec α) : MyVec α :=
  if v.len = v.capacity then v.grow else v

/-- `MyVec::push`: grow if needed, write the value at slot `len`,
increment `len`. -/
def push (v : MyVec α) (value : α) : MyVec α :=
  let v := v.grow_if_needed
  ⟨v.data ++ [value], v.capacity⟩

/-- `MyVec::pop`: `None` when empty, otherwise decrement `len` and read
slot `len` out (ownership moves to the caller, no drop). -/
def pop (v : MyVec α) : Option α × MyVec α :=
  if v.len = 0 then (none, v)
  else (v.data.getLast?, ⟨v.data.dropLast, v.capacity⟩)

/-- `MyVec::insert`: bounds check (`index > len` panics) first, then grow if
needed, shift slots `[index, len)` right by one, write the value at
`index`, increment `len`. -/
def insert (v : MyVec α) (index : Nat) (value : α) :
    Except (String × MyVec α) (MyVec α) :=
  if index > v.len then
    .error ("insert index out of bounds: " ++ toString index ++ " > " ++
      toString v.len, v)
  else
    let v := v.grow_if_needed
    .ok ⟨v.data.take index ++ value :: v.data.drop index, v.capacity⟩

/-- `MyVec::remove`: bounds check (`index >= len` panics) first, then read
slot `index` out, shift slots `[index+1, len)` left by one, decrement
`len`. -/
def remove (v : MyVec α) (index : Nat) :
    Except (String × MyVec α) (α × MyVec α) :=
  if h : index ≥ v.len then
    .error ("remove index out of bounds: " ++ toString index ++ " >= " ++
      toString v.len, v)
  else
    .ok (v.data.get ⟨index, Nat.lt_of_not_le h⟩,
      ⟨v.data.take index ++ v.data.drop (index + 1), v.capacity⟩)

/-- `MyVec::clear`: when `len > 0`, drop all live elements in place and set
`len` to 0; capacity is untouched. -/
def clear (v : MyVec α) : MyVec α :=
  if v.len > 0 then ⟨[], v.capacity⟩ else v

/-- `MyVec::shrink_to_fit`: no-op when `capacity == len`; deallocate
entirely when `len == 0`; otherwise reallocate to exactly `len` slots. -/
def shrink_to_fit (v : MyVec α) : MyVec α :=
  if v.capacity = v.len then v
  else if v.len = 0 then ⟨[], 0⟩
  else ⟨v.data, v.len⟩

/-- `Index for MyVec`: bounds-checked read; `index >= len` panics. -/
def index (v : MyVec α) (i : Nat) : Except String α :=
  if h : i ≥ v.len then
    .error ("index out of bounds: " ++ toString i ++ " >= " ++
      toString v.len)
  else
    .ok (v.data.get ⟨i, Nat.lt_of_not_le h⟩)

/-- `IndexMut for MyVec` used for writing (`v[i] = x`): bounds-checked;
`index >= len` panics, the in-bounds case overwrites slot `i`. -/
def index_set (v : MyVec α) (i : Nat) (value : α) :
    Except (String × MyVec α) (MyVec α) :=
  if i ≥ v.len then
    .error ("index out of bounds: " ++ toString i ++ " >= " ++
      toString v.len, v)
  else
    .ok ⟨v.data.set i value, v.capacity⟩

/-- `Clone for MyVec`: `with_capacity(self.len)` then push a clone of each
element in index order (element cloning is the identity in this model). -/
def clone (v : MyVec α) : MyVec α :=
  v.data.foldl (fun acc x => acc.push x) (with_capacity v.len)

end MyVec

/-- The consuming iterator `MyVecIntoIter` of `src/vec.rs`.  Its `len` field
always equals the number of live elements taken over from the vector, so it
is represented by `elems.length`; `elems` are the live elements of the
buffer, `index` is the cursor. -/
structure MyVecIntoIter (α : Type u) : Type u where
  elems : List α
  capacity : Nat
  index : Nat
deriving Repr, DecidableEq

namespace MyVec

/-- `IntoIterator for MyVec::into_iter`: hand the buffer, `len` and
`capacity` to the iterator, cursor at 0 (`mem::forget` on the vector). -/
def into_iter (v : MyVec α) : MyVecIntoIter α :=
  ⟨v.data, v.capacity, 0⟩

end MyVec

namespace MyVecIntoIter

variable {α : Type u}

/-- `Iterator for MyVecIntoIter::next`: when `index < len`, read the element
at the cursor out (ownership moves out) and advance the cursor; otherwise
produce `None`. -/
def next (it : MyVecIntoIter α) : Option α × MyVecIntoIter α :=
  if h : it.index < it.elems.length then
    (some (it.elems.get ⟨it.index, h⟩),
      ⟨it.elems, it.capacity, it.index + 1⟩)
  else
    (none, it)

/-- `Iterator for MyVecIntoIter::size_hint`. -/
def size_hint (it : MyVecIntoIter α) : Nat × Option Nat :=
  (it.elems.length - it.index, some (it.elems.length - it.index))

/-- `Drop for MyVecIntoIter`: the elements whose destructors the drop glue
runs, i.e. the unconsumed elements in `[index, len)`, in order. -/
def dropped (it : MyVecIntoIter α) : List α :=
  it.elems.drop it.index

/-- Call `next` a given number of times, collecting the produced elements
in order together with the final iterator state. -/
def consumeN : MyVecIntoIter α → Nat → List α × MyVecIntoIter α
  | it, 0 => ([], it)
  | it, k + 1 =>
    match it.next with
    | (some x, it') =>
      let r := consumeN it' k
      (x :: r.1, r.2)
    | (none, it') => ([], it')

end MyVecIntoIter

/-- Pushing a whole list of values, one `push` at a time, in order. -/
def MyVec.pushList {α : Type u} (v : MyVec α) (xs : List α) : MyVec α :=
  xs.foldl (fun acc x => acc.push x) v

/-- The capacity after `n` pushes starting from `MyVec::new`:
0 for `n = 0` and otherwise the least power of two that is `≥ n`
(the doubling schedule 0, 1, 2, 4, 8, ...). -/
def capSchedule (n : Nat) : Nat :=
  if n = 0 then 0 else 2 ^ Nat.clog 2 n

/-- One mutating public operation on a `MyVec`, for reasoning about
arbitrary sequences of mutations. -/
inductive VOp (α : Type u) : Type u where
  | push (x : α)
  | pop
  | insert (i : Nat) (x : α)
  | remove (i : Nat)
  | clear
  | shrink
  | set (i : Nat) (x : α)

/-- Run one mutating operation on a vector, keeping the state the operation
leaves behind (for the panicking operations this is the state at the panic,
which by `MyVec.insert`/`MyVec.remove`/`MyVec.index_set` is the untouched
input). -/
def VOp.apply {α : Type u} (op : VOp α) (v : MyVec α) : MyVec α :=
  match op with
  | .push x => v.push x
  | .pop => (v.pop).2
  | .insert i x =>
    match v.insert i x with
    | .ok v' => v'
    | .error e => e.2
  | .remove i =>
    match v.remove i with
    | .ok r => r.2
    | .error e => e.2
  | .clear => v.clear
  | .shrink => v.shrink_to_fit
  | .set i x =>
    match v.index_set i x with
    | .ok v' => v'
    | .error e => e.2

/-- A heap of `MyVec` buffers: distinct allocations live at distinct
handles, `next` is the first unused handle.  This models what the pure
vector value cannot: that `Clone for MyVec` allocates a fresh buffer,
disjoint from the original's. -/
structure Store (α : Type u) : Type u where
  next : Nat
  mem : Nat → MyVec α

namespace Store

variable {α : Type u}

/-- Run one mutating operation on the buffer at handle `h`, in place. -/
def applyAt (s : Store α) (h : Nat) (op : VOp α) : Store α :=
  ⟨s.next, fun n => if n = h then op.apply (s.mem n) else s.mem n⟩

/-- Run a sequence of mutating operations on the buffer at handle `h`. -/
def runAt (s : Store α) (h : Nat) : List (VOp α) → Store α
  | [] => s
  | op :: ops => (s.applyAt h op).runAt h ops

/-- `Clone for MyVec` at the heap level: the clone of the buffer at `h` is
written to a fresh handle, which is returned. -/
def cloneAt (s : Store α) (h : Nat) : Nat × Store α :=
  (s.next,
    ⟨s.next + 1, fun n => if n = s.next then (s.mem h).clone else s.mem n⟩)

end Store

/-! ### Basic lemmas about the operations -/

namespace MyVec

variable {α : Type u}

theorem push_data (v : MyVec α) (x : α) : (v.push x).data = v.data ++ [x] := by
  simp [push, grow_if_needed, grow]
  split <;> rfl

theorem push_capacity (v : MyVec α) (x : α) :
    (v.push x).capacity =
      if v.data.length = v.capacity then
        (if v.capacity = 0 then 1 else v.capacity * 2)
      else v.capacity := by
  simp only [push, grow_if_needed, grow, len]
  split <;> rfl

theorem push_len (v : MyVec α) (x : α) :
    (v.push x).len = v.len + 1 := by
  simp [len, push_data]

/-- Pushing onto a vector with spare capacity appends without growing. -/
theorem push_of_spare (v : MyVec α) (x : α)
    (h : v.data.length ≠ v.capacity) :
    v.push x = ⟨v.data ++ [x], v.capacity⟩ := by
  simp [push, grow_if_needed, len, h]

theorem pushList_append_single (v : MyVec α) (xs : List α) (x : α) :
    v.pushList (xs ++ [x]) = (v.pushList xs).push x := by
  simp [pushList]

theorem grow_if_needed_data (v : MyVec α) :
    (v.grow_if_needed).data = v.data := by
  simp only [grow_if_needed, grow]
  split <;> rfl

theorem grow_if_needed_capacity (v : MyVec α) :
    (v.grow_if_needed).capacity =
      if v.len = v.capacity then
        (if v.capacity = 0 then 1 else v.capacity * 2)
      else v.capacity := by
  simp only [grow_if_needed, grow]
  split <;> rfl

theorem insert_of_le (v : MyVec α) (i : Nat) (x : α) (h : i ≤ v.len) :
    v.insert i x =
      .ok ⟨v.data.take i ++ x :: v.data.drop i,
        (v.grow_if_needed).capacity⟩ := by
  rw [insert, if_neg (Nat.not_lt.2 h)]
  dsimp only
  rw [grow_if_needed_data]

theorem insert_of_gt (v : MyVec α) (i : Nat) (x : α) (h : i > v.len) :
    v.insert i x =
      .error ("insert index out of bounds: " ++ toString i ++ " > " ++
        toString v.len, v) := by
  rw [insert, if_pos h]

theorem remove_of_lt (v : MyVec α) (i : Nat) (h : i < v.len) :
    v.remove i =
      .ok (v.data.get ⟨i, h⟩,
        ⟨v.data.take i ++ v.data.drop (i + 1), v.capacity⟩) := by
  rw [remove, dif_neg (Nat.not_le.2 h)]

theorem remove_of_ge (v : MyVec α) (i : Nat) (h : i ≥ v.len) :
    v.remove i =
      .error ("remove index out of bounds: " ++ toString i ++ " >= " ++
        toString v.len, v) := by
  rw [remove, dif_pos h]

theorem index_of_lt (v : MyVec α) (i : Nat) (h : i < v.len) :
    v.index i = .ok (v.data.get ⟨i, h⟩) := by
  rw [index, dif_neg (Nat.not_le.2 h)]

theorem index_of_ge (v : MyVec α) (i : Nat) (h : i ≥ v.len) :
    v.index i =
      .error ("index out of bounds: " ++ toString i ++ " >= " ++
        toString v.len) := by
  rw [index, dif_pos h]

theorem index_set_of_lt (v : MyVec α) (i : Nat) (x : α) (h : i < v.len) :
    v.index_set i x = .ok ⟨v.data.set i x, v.capacity⟩ := by
  rw [index_set, if_neg (Nat.not_le.2 h)]

theorem index_set_of_ge (v : MyVec α) (i : Nat) (x : α) (h : i ≥ v.len) :
    v.index_set i x =
      .error ("index out of bounds: " ++ toString i ++ " >= " ++
        toString v.len, v) := by
  rw [index_set, if_pos h]

theorem pop_push (v : MyVec α) (x : α) :
    (v.push x).pop = (some x, ⟨v.data, (v.push x).capacity⟩) := by
  have hd : (v.push x).data = v.data ++ [x] := push_data v x
  rw [pop, if_neg (by simp [len, hd])]
  rw [hd, List.getLast?_concat, List.dropLast_concat]

theorem pop_snd_capacity (v : MyVec α) :
    (v.pop).2.capacity = v.capacity := by
  rw [pop]
  split <;> rfl

theorem pop_of_empty (v : MyVec α) (h : v.data = []) :
    v.pop = (none, v) := by
  rw [pop, if_pos (by simp [len, h])]

theorem clear_data (v : MyVec α) : (v.clear).data = [] := by
  rw [clear]
  by_cases h : v.len > 0
  · rw [if_pos h]
  · rw [if_neg h]
    exact List.length_eq_zero.mp (Nat.eq_zero_of_not_pos h)

theorem clear_capacity (v : MyVec α) : (v.clear).capacity = v.capacity := by
  rw [clear]
  split <;> rfl

theorem clear_of_empty (v : MyVec α) (h : v.data = []) : v.clear = v := by
  rw [clear, if_neg (by simp [len, h])]

end MyVec

theorem capSchedule_zero : capSchedule 0 = 0 := rfl

theorem capSchedule_one : capSchedule 1 = 1 := by
  simp [capSchedule, Nat.clog_one_right]

/-- The least power of two `≥ n` follows exactly the growth rule of
`MyVec::grow` under `grow_if_needed`: it changes at step `n → n + 1`
exactly when `n` has reached it, going `0 → 1` and doubling otherwise. -/
theorem capSchedule_succ (n : Nat) :
    capSchedule (n + 1) =
      if n = capSchedule n then
        (if capSchedule n = 0 then 1 else capSchedule n * 2)
      else capSchedule n := by
  rcases Nat.eq_zero_or_pos n with hn | hn
  · subst hn
    simp [capSchedule_zero, capSchedule_one]
  · have hn' : n ≠ 0 := hn.ne'
    have hle : n ≤ 2 ^ Nat.clog 2 n := Nat.le_pow_clog one_lt_two n
    simp only [capSchedule, hn', if_false, Nat.succ_ne_zero]
    by_cases heq : n = 2 ^ Nat.clog 2 n
    · have hpow : Nat.clog 2 (n + 1) = Nat.clog 2 n + 1 := by
        apply le_antisymm
        · rw [← Nat.le_pow_iff_clog_le one_lt_two]
          calc n + 1 ≤ n + n := by omega
            _ = 2 ^ Nat.clog 2 n * 2 := by rw [← heq]; ring
            _ = 2 ^ (Nat.clog 2 n + 1) := by rw [Nat.pow_succ]
        · rw [Nat.succ_le_iff, ← Nat.pow_lt_iff_lt_clog one_lt_two]
          omega
      have hne : (2 : Nat) ^ Nat.clog 2 n ≠ 0 := (Nat.pos_pow_of_pos _ (by norm_num)).ne'
      simp only [hpow, hne, if_false]
      rw [if_pos heq, Nat.pow_succ]
    · have hlt : n < 2 ^ Nat.clog 2 n := lt_of_le_of_ne hle heq
      have hpow : Nat.clog 2 (n + 1) = Nat.clog 2 n := by
        apply le_antisymm
        · rw [← Nat.le_pow_iff_clog_le one_lt_two]
          omega
        · exact Nat.clog_mono_right 2 (by omega)
      have hne : (2 : Nat) ^ Nat.clog 2 n ≠ 0 := (Nat.pos_pow_of_pos _ (by norm_num)).ne'
      simp only [hne, if_false]
      rw [hpow, if_neg heq]

theorem splice_length {α : Type u} (l : List α) (a : α) (i : Nat)
    (hi : i ≤ l.length) :
    (l.take i ++ a :: l.drop i).length = l.length + 1 := by
  simp
  omega

theorem splice_get {α : Type u} (l : List α) (a : α) (i : Nat)
    (hi : i ≤ l.length) (h : i < (l.take i ++ a :: l.drop i).length) :
    (l.take i ++ a :: l.drop i).get ⟨i, h⟩ = a := by
  have hlen : (l.take i).length = i := by simp [Nat.min_eq_left hi]
  rw [List.get_eq_getElem, List.getElem_append_right] <;> simp [hlen]

theorem splice_take {α : Type u} (l : List α) (a : α) (i : Nat)
    (hi : i ≤ l.length) :
    (l.take i ++ a :: l.drop i).take i = l.take i := by
  have hlen : (l.take i).length = i := by simp [Nat.min_eq_left hi]
  have h := List.take_left (l.take i) (a :: l.drop i)
  rwa [hlen] at h

theorem splice_drop {α : Type u} (l : List α) (a : α) (i : Nat)
    (hi : i ≤ l.length) :
    (l.take i ++ a :: l.drop i).drop (i + 1) = l.drop i := by
  have hlen : (l.take i).length = i := by simp [Nat.min_eq_left hi]
  have h := @List.drop_append α (l.take i) (a :: l.drop i) 1
  rw [hlen] at h
  simpa using h

/-- Pushing a list of values onto a vector with enough spare capacity
appends them all without any growth. -/
theorem foldl_push_spare {α : Type u} :
    ∀ (l : List α) (v : MyVec α),
      v.data.length + l.length ≤ v.capacity →
      l.foldl (fun acc x => acc.push x) v = ⟨v.data ++ l, v.capacity⟩
  | [], v, _ => by simp
  | x :: xs, v, h => by
    have hne : v.data.length ≠ v.capacity := by
      simp at h
      omega
    rw [List.foldl_cons, MyVec.push_of_spare v x hne,
      foldl_push_spare xs ⟨v.data ++ [x], v.capacity⟩ (by simp at h ⊢; omega)]
    simp

/-- `Clone for MyVec` produces the same element sequence with capacity
equal to the length. -/
theorem clone_eq {α : Type u} (v : MyVec α) :
    v.clone = ⟨v.data, v.data.length⟩ := by
  by_cases h : v.data.length = 0
  · have hnil : v.data = [] := List.length_eq_zero.mp h
    simp [MyVec.clone, hnil, MyVec.len, MyVec.with_capacity, MyVec.new]
  · have hcap : (MyVec.with_capacity v.len : MyVec α) = ⟨[], v.data.length⟩ := by
      simp only [MyVec.with_capacity, MyVec.len, if_neg h]
    rw [MyVec.clone, hcap,
      foldl_push_spare v.data ⟨[], v.data.length⟩ (by simp)]
    simp

/-- Calling `next` repeatedly just walks the cursor along the buffer:
after `k` calls from a state whose cursor has `k` elements left, the
produced list is the next `k` elements and the cursor advanced by `k`. -/
theorem consumeN_spec {α : Type u} :
    ∀ (k : Nat) (it : MyVecIntoIter α), it.index + k ≤ it.elems.length →
      it.consumeN k =
        ((it.elems.drop it.index).take k,
          ⟨it.elems, it.capacity, it.index + k⟩)
  | 0, it, _ => by simp [MyVecIntoIter.consumeN]
  | k + 1, it, h => by
    have hlt : it.index < it.elems.length := by omega
    have hnext : it.next =
        (some (it.elems.get ⟨it.index, hlt⟩),
          ⟨it.elems, it.capacity, it.index + 1⟩) := by
      rw [MyVecIntoIter.next, dif_pos hlt]
    have ih := consumeN_spec k ⟨it.elems, it.capacity, it.index + 1⟩
      (by simp; omega)
    rw [MyVecIntoIter.consumeN, hnext]
    simp only at ih ⊢
    rw [ih]
    have hdrop : it.elems.drop it.index =
        it.elems.get ⟨it.index, hlt⟩ :: it.elems.drop (it.index + 1) := by
      rw [List.get_eq_getElem]
      exact List.drop_eq_getElem_cons hlt
    rw [hdrop, List.take_succ_cons]
    simp [List.get_eq_getElem, Prod.ext_iff]
    omega

/-- The capacity chosen by `grow_if_needed` differs from the old one
exactly when `length = capacity`, in which case it is given by the
`0 → 1` / doubling rule. -/
theorem growCapFacts (l c : Nat) :
    ((if l = c then (if c = 0 then 1 else c * 2) else c) ≠ c ↔ l = c) ∧
    (l = c → (if l = c then (if c = 0 then 1 else c * 2) else c) =
      (if c = 0 then 1 else c * 2)) ∧
    (l ≠ c → (if l = c then (if c = 0 then 1 else c * 2) else c) = c) := by
  by_cases h : l = c
  · subst h
    by_cases h0 : l = 0 <;> simp [h0]
  · simp [h]

/-- `MyVec::clear` in one equation: empty elements, capacity kept. -/
theorem clear_eq {α : Type u} (v : MyVec α) :
    v.clear = ⟨[], v.capacity⟩ := by
  have hd := MyVec.clear_data v
  have hc := MyVec.clear_capacity v
  cases hv : v.clear with
  | mk d c =>
    rw [hv] at hd hc
    simp at hd hc
    rw [hd, hc]

/-- If the iterator is already exhausted, `next` signals exhaustion and
leaves the state unchanged. -/
theorem next_exhausted {α : Type u} (it : MyVecIntoIter α)
    (h : it.elems.length ≤ it.index) : it.next = (none, it) := by
  rw [MyVecIntoIter.next, dif_neg (Nat.not_lt.2 h)]

/-- Running operations on the buffer at one handle leaves every other
handle's buffer untouched. -/
theorem runAt_mem_ne {α : Type u} :
    ∀ (ops : List (VOp α)) (s : Store α) (a b : Nat), b ≠ a →
      (s.runAt a ops).mem b = s.mem b
  | [], _, _, _, _ => rfl
  | op :: ops, s, a, b, hne => by
    rw [Store.runAt, runAt_mem_ne ops _ a b hne]
    simp [Store.applyAt, hne]

/-- `capSchedule n` is a power of two `≥ n` and `< 2 n` (for `n ≥ 1`). -/
theorem capSchedule_pow (n : Nat) (hn : n ≠ 0) :
    ∃ k, capSchedule n = 2 ^ k ∧ n ≤ 2 ^ k ∧ 2 ^ k < 2 * n := by
  refine ⟨Nat.clog 2 n, by simp [capSchedule, hn], Nat.le_pow_clog one_lt_two n, ?_⟩
  rcases Nat.lt_or_ge n 2 with h2 | h2
  · have h1 : n = 1 := by omega
    subst h1
    simp [Nat.clog_one_right]
  · have hpos : 0 < Nat.clog 2 n := Nat.clog_pos one_lt_two h2
    have hlt : 2 ^ (Nat.clog 2 n - 1) < n := by
      have := Nat.pow_pred_clog_lt_self one_lt_two h2
      simpa [Nat.pred_eq_sub_one] using this
    have : 2 ^ Nat.clog 2 n = 2 * 2 ^ (Nat.clog 2 n - 1) := by
      rw [← Nat.pow_succ']
      congr 1
      omega
    omega

/-- `MyVec::push` on an explicit state, as a single equation. -/
theorem MyVec.push_step {α : Type u} (xs : List α) (c : Nat) (x : α) :
    (⟨xs, c⟩ : MyVec α).push x =
      ⟨xs ++ [x], if xs.length = c then (if c = 0 then 1 else c * 2) else c⟩ := by
  by_cases h : xs.length = c <;>
    simp [MyVec.push, MyVec.grow_if_needed, MyVec.grow, MyVec.len, h]

/-- Starting from `MyVec::new`, pushing the list `xs` yields exactly the
elements `xs` with capacity `capSchedule xs.length`. -/
theorem pushList_new {α : Type u} (xs : List α) :
    MyVec.pushList (MyVec.new : MyVec α) xs = ⟨xs, capSchedule xs.length⟩ := by
  induction xs using List.reverseRecOn with
  | nil => rfl
  | append_singleton ys y ih =>
    rw [MyVec.pushList_append_single, ih, MyVec.push_step, List.length_append]
    simp only [List.length_cons, List.length_nil, Nat.zero_add]
    rw [capSchedule_succ]

/-! ### The claims -/

/-- C1: a push or (successful) insert grows the capacity if and only if
`length == capacity` at that moment; the new capacity is 1 when the old
one was 0 and twice the old one otherwise; starting from `new()`, after
pushing any sequence `xs`, `len()` equals `xs.length` and the capacity is
`capSchedule xs.length`, the doubling schedule 0, 1, 2, 4, 8, ... (0 for
zero pushes, otherwise the least power of two `≥ N`, which is reached by
growing exactly at the pushes where `length == capacity`). -/
theorem C1_growth_policy {α : Type u} :
    (∀ (v : MyVec α) (x : α),
        ((v.push x).capacity ≠ v.capacity ↔ v.len = v.capacity) ∧
        (v.len = v.capacity →
          (v.push x).capacity = if v.capacity = 0 then 1 else v.capacity * 2) ∧
        (v.len ≠ v.capacity → (v.push x).capacity = v.capacity)) ∧
    (∀ (v : MyVec α) (i : Nat) (x : α) (v' : MyVec α),
        v.insert i x = .ok v' →
        ((v'.capacity ≠ v.capacity ↔ v.len = v.capacity) ∧
         (v.len = v.capacity →
           v'.capacity = if v.capacity = 0 then 1 else v.capacity * 2) ∧
         (v.len ≠ v.capacity → v'.capacity = v.capacity))) ∧
    (∀ xs : List α,
        (MyVec.pushList MyVec.new xs).len = xs.length ∧
        (MyVec.pushList MyVec.new xs).capacity = capSchedule xs.length) ∧
    capSchedule 0 = 0 ∧
    (∀ n : Nat, n ≠ 0 →
        ∃ k, capSchedule n = 2 ^ k ∧ n ≤ 2 ^ k ∧ 2 ^ k < 2 * n) := by
  refine ⟨?_, ?_, ?_, rfl, capSchedule_pow⟩
  · intro v x
    have hc := MyVec.push_capacity v x
    simp only [MyVec.len]
    rw [hc]
    exact growCapFacts v.data.length v.capacity
  · intro v i x v' hok
    by_cases hgt : i > v.len
    · rw [MyVec.insert_of_gt v i x hgt] at hok
      exact absurd hok (by simp)
    · rw [MyVec.insert_of_le v i x (Nat.not_lt.1 hgt)] at hok
      have hv' : v' =
          ⟨v.data.take i ++ x :: v.data.drop i,
            (v.grow_if_needed).capacity⟩ := by
        cases hok
        rfl
      rw [hv']
      simp only [MyVec.grow_if_needed_capacity, MyVec.len]
      exact growCapFacts v.data.length v.capacity
  · intro xs
    rw [pushList_new]
    exact ⟨rfl, rfl⟩

/-- Witness for C1 at concrete inputs: a push on a full one-slot buffer
doubles the capacity, a successful insert into a buffer with spare room
keeps it, three pushes from `new` give capacity 4. -/
theorem C1_growth_policy_witness :
    ((⟨[5], 1⟩ : MyVec Nat).push 6).capacity =
      (if (1 : Nat) = 0 then 1 else 1 * 2) ∧
    (⟨[9, 7], 2⟩ : MyVec Nat).capacity = (⟨[7], 2⟩ : MyVec Nat).capacity ∧
    (MyVec.pushList (MyVec.new : MyVec Nat) [1, 2, 3]).capacity =
      capSchedule 3 ∧
    (∃ k, capSchedule 3 = 2 ^ k ∧ 3 ≤ 2 ^ k ∧ 2 ^ k < 2 * 3) := by
  refine ⟨((@C1_growth_policy Nat).1 ⟨[5], 1⟩ 6).2.1 (by decide),
    ((@C1_growth_policy Nat).2.1 ⟨[7], 2⟩ 0 9 ⟨[9, 7], 2⟩ ?_).2.2 (by decide),
    ((@C1_growth_policy Nat).2.2.1 [1, 2, 3]).2,
    (@C1_growth_policy Nat).2.2.2.2 3 (by decide)⟩
  rw [MyVec.insert_of_le ⟨[7], 2⟩ 0 9 (by decide)]
  rfl

/-- C4: `pop()` right after `push(x)` returns `x` and restores the prior
element sequence; `pop()` on an empty buffer returns `None` and leaves the
buffer unchanged (hence idempotent on empty); `pop()` never changes the
capacity. -/
theorem C4_pop_inverse_of_push {α : Type u} :
    (∀ (v : MyVec α) (x : α),
        ((v.push x).pop).1 = some x ∧ ((v.push x).pop).2.data = v.data) ∧
    (∀ v : MyVec α, v.data = [] → v.pop = (none, v)) ∧
    (∀ v : MyVec α, (v.pop).2.capacity = v.capacity) := by
  refine ⟨?_, MyVec.pop_of_empty, MyVec.pop_snd_capacity⟩
  intro v x
  rw [MyVec.pop_push]
  exact ⟨rfl, rfl⟩

/-- Witness for C4 at concrete inputs. -/
theorem C4_pop_inverse_of_push_witness :
    ((⟨[1], 4⟩ : MyVec Nat).push 9).pop.1 = some 9 ∧
    (⟨[], 3⟩ : MyVec Nat).pop = (none, ⟨[], 3⟩) := by
  exact ⟨((@C4_pop_inverse_of_push Nat).1 ⟨[1], 4⟩ 9).1,
    (@C4_pop_inverse_of_push Nat).2.1 ⟨[], 3⟩ rfl⟩

/-- C7: `clear()` empties the buffer (length 0) while keeping the
capacity, is a no-op on an already empty buffer, and a `shrink_to_fit()`
performed after it reduces the capacity to 0. -/
theorem C7_clear_keeps_capacity {α : Type u} :
    ∀ v : MyVec α,
      (v.clear).data = [] ∧
      (v.clear).len = 0 ∧
      (v.clear).capacity = v.capacity ∧
      (v.data = [] → v.clear = v) ∧
      (v.clear).shrink_to_fit = ⟨[], 0⟩ := by
  intro v
  refine ⟨MyVec.clear_data v, ?_, MyVec.clear_capacity v, MyVec.clear_of_empty v, ?_⟩
  · simp [MyVec.len, MyVec.clear_data v]
  · rw [clear_eq]
    by_cases h : v.capacity = 0
    · simp [MyVec.shrink_to_fit, MyVec.len, h]
    · simp [MyVec.shrink_to_fit, MyVec.len, h]

/-- Witness for C7 at a concrete input. -/
theorem C7_clear_keeps_capacity_witness :
    (⟨[], 6⟩ : MyVec Nat).clear = ⟨[], 6⟩ ∧
    ((⟨[1, 2], 6⟩ : MyVec Nat).clear).capacity = 6 ∧
    ((⟨[1, 2], 6⟩ : MyVec Nat).clear).shrink_to_fit = ⟨[], 0⟩ := by
  exact ⟨(C7_clear_keeps_capacity (⟨[], 6⟩ : MyVec Nat)).2.2.2.1 rfl,
    (C7_clear_keeps_capacity (⟨[1, 2], 6⟩ : MyVec Nat)).2.2.1,
    (C7_clear_keeps_capacity (⟨[1, 2], 6⟩ : MyVec Nat)).2.2.2.2⟩

/-- C10: `clone()` copies the element sequence but sets the capacity to
the source's length (not its capacity), so the very next push on the
clone triggers a growth. -/
theorem C10_clone_capacity_is_length {α : Type u} :
    ∀ (v : MyVec α) (x : α),
      v.clone.data = v.data ∧
      v.clone.len = v.len ∧
      v.clone.capacity = v.len ∧
      (v.clone.push x).capacity ≠ v.clone.capacity := by
  intro v x
  rw [clone_eq]
  refine ⟨rfl, rfl, rfl, ?_⟩
  have h := MyVec.push_capacity (⟨v.data, v.data.length⟩ : MyVec α) x
  rw [h]
  exact (growCapFacts v.data.length v.data.length).1.mpr rfl


/-- C3: for `0 ≤ i ≤ length`, `insert(i, v)` splices `v` at position `i`
preserving the relative order of the other elements, and `remove(i)`
applied immediately afterwards returns `v` and restores exactly the
original sequence (remove is insert's left inverse). -/
theorem C3_remove_inverts_insert {α : Type u} (v : MyVec α) (i : Nat)
    (x : α) (h : i ≤ v.len) :
    ∃ v' v'', v.insert i x = .ok v' ∧
      v'.data = v.data.take i ++ x :: v.data.drop i ∧
      v'.len = v.len + 1 ∧
      v'.remove i = .ok (x, v'') ∧
      v''.data = v.data ∧ v''.len = v.len := by
  have hi : i ≤ v.data.length := h
  refine ⟨⟨v.data.take i ++ x :: v.data.drop i, (v.grow_if_needed).capacity⟩,
    ⟨v.data, (v.grow_if_needed).capacity⟩,
    MyVec.insert_of_le v i x h, rfl, ?_, ?_, rfl, rfl⟩
  · show (v.data.take i ++ x :: v.data.drop i).length = v.data.length + 1
    exact splice_length v.data x i hi
  · have hlt : i < (⟨v.data.take i ++ x :: v.data.drop i,
        (v.grow_if_needed).capacity⟩ : MyVec α).len := by
      show i < (v.data.take i ++ x :: v.data.drop i).length
      rw [splice_length v.data x i hi]
      omega
    rw [MyVec.remove_of_lt _ i hlt]
    rw [show ((⟨v.data.take i ++ x :: v.data.drop i,
        (v.grow_if_needed).capacity⟩ : MyVec α).data.get ⟨i, hlt⟩) = x from
      splice_get v.data x i hi hlt]
    rw [show ((⟨v.data.take i ++ x :: v.data.drop i,
        (v.grow_if_needed).capacity⟩ : MyVec α).data.take i) = v.data.take i from
      splice_take v.data x i hi]
    rw [show ((⟨v.data.take i ++ x :: v.data.drop i,
        (v.grow_if_needed).capacity⟩ : MyVec α).data.drop (i + 1)) = v.data.drop i from
      splice_drop v.data x i hi]
    rw [List.take_append_drop]

/-- Witness for C3 at a concrete input: inserting 2 at position 1 of
`[1, 3]` and removing it again. -/
theorem C3_remove_inverts_insert_witness :
    ∃ v' v'', (⟨[1, 3], 2⟩ : MyVec Nat).insert 1 2 = .ok v' ∧
      v'.data = List.take 1 [1, 3] ++ 2 :: List.drop 1 [1, 3] ∧
      v'.len = (⟨[1, 3], 2⟩ : MyVec Nat).len + 1 ∧
      v'.remove 1 = .ok (2, v'') ∧
      v''.data = [1, 3] ∧ v''.len = (⟨[1, 3], 2⟩ : MyVec Nat).len :=
  C3_remove_inverts_insert (⟨[1, 3], 2⟩ : MyVec Nat) 1 2 (by decide)

/-- C5: out-of-bounds indexed read/write (`index >= length`), insert
(`index > length`) and remove (`index >= length`) each panic with a
message carrying the offending index and the bound, while in-bounds calls
never take the failure branch. -/
theorem C5_bounds_violations_fatal {α : Type u} :
    (∀ (v : MyVec α) (i : Nat), i ≥ v.len →
        v.index i = .error ("index out of bounds: " ++ toString i ++
          " >= " ++ toString v.len)) ∧
    (∀ (v : MyVec α) (i : Nat) (x : α), i ≥ v.len →
        v.index_set i x = .error ("index out of bounds: " ++ toString i ++
          " >= " ++ toString v.len, v)) ∧
    (∀ (v : MyVec α) (i : Nat) (x : α), i > v.len →
        v.insert i x = .error ("insert index out of bounds: " ++
          toString i ++ " > " ++ toString v.len, v)) ∧
    (∀ (v : MyVec α) (i : Nat), i ≥ v.len →
        v.remove i = .error ("remove index out of bounds: " ++ toString i ++
          " >= " ++ toString v.len, v)) ∧
    (∀ (v : MyVec α) (i : Nat) (h : i < v.len),
        v.index i = .ok (v.data.get ⟨i, h⟩)) ∧
    (∀ (v : MyVec α) (i : Nat) (x : α), i < v.len →
        ∃ w, v.index_set i x = .ok w) ∧
    (∀ (v : MyVec α) (i : Nat) (x : α), i ≤ v.len →
        ∃ w, v.insert i x = .ok w) ∧
    (∀ (v : MyVec α) (i : Nat), i < v.len → ∃ r, v.remove i = .ok r) :=
  ⟨MyVec.index_of_ge, fun v i x h => MyVec.index_set_of_ge v i x h,
    fun v i x h => MyVec.insert_of_gt v i x h, MyVec.remove_of_ge,
    MyVec.index_of_lt, fun v i x h => ⟨_, MyVec.index_set_of_lt v i x h⟩,
    fun v i x h => ⟨_, MyVec.insert_of_le v i x h⟩,
    fun v i h => ⟨_, MyVec.remove_of_lt v i h⟩⟩

/-- Witness for C5 at concrete inputs: out-of-bounds read, insert and
remove on the one-element buffer `[4]`, and an in-bounds read. -/
theorem C5_bounds_violations_fatal_witness :
    (⟨[4], 1⟩ : MyVec Nat).index 3 =
      .error ("index out of bounds: " ++ toString 3 ++ " >= " ++
        toString (⟨[4], 1⟩ : MyVec Nat).len) ∧
    (⟨[4], 1⟩ : MyVec Nat).insert 2 7 =
      .error ("insert index out of bounds: " ++ toString 2 ++ " > " ++
        toString (⟨[4], 1⟩ : MyVec Nat).len, ⟨[4], 1⟩) ∧
    (⟨[4], 1⟩ : MyVec Nat).remove 1 =
      .error ("remove index out of bounds: " ++ toString 1 ++ " >= " ++
        toString (⟨[4], 1⟩ : MyVec Nat).len, ⟨[4], 1⟩) ∧
    (⟨[4], 1⟩ : MyVec Nat).index 0 = .ok 4 :=
  ⟨(@C5_bounds_violations_fatal Nat).1 ⟨[4], 1⟩ 3 (by decide),
    (@C5_bounds_violations_fatal Nat).2.2.1 ⟨[4], 1⟩ 2 7 (by decide),
    (@C5_bounds_violations_fatal Nat).2.2.2.1 ⟨[4], 1⟩ 1 (by decide),
    (@C5_bounds_violations_fatal Nat).2.2.2.2.1 ⟨[4], 1⟩ 0 (by decide)⟩

/-- C9: when insert, remove or indexed write fails its bounds check, the
buffer is left completely unchanged — the bounds check in insert runs
before any growth, so the state carried by the panic is exactly the input
buffer (same data, length and capacity, no allocation). -/
theorem C9_failed_bounds_check_atomic {α : Type u} :
    (∀ (v : MyVec α) (i : Nat) (x : α), i > v.len →
        (VOp.insert i x).apply v = v) ∧
    (∀ (v : MyVec α) (i : Nat), i ≥ v.len → (VOp.remove i).apply v = v) ∧
    (∀ (v : MyVec α) (i : Nat) (x : α), i ≥ v.len →
        (VOp.set i x).apply v = v) ∧
    (∀ (v : MyVec α) (i : Nat) (x : α), i > v.len →
        ∃ m, v.insert i x = .error (m, v)) ∧
    (∀ (v : MyVec α) (i : Nat), i ≥ v.len →
        ∃ m, v.remove i = .error (m, v)) ∧
    (∀ (v : MyVec α) (i : Nat) (x : α), i ≥ v.len →
        ∃ m, v.index_set i x = .error (m, v)) := by
  refine ⟨?_, ?_, ?_, ?_, ?_, ?_⟩
  · intro v i x h
    simp [VOp.apply, MyVec.insert_of_gt v i x h]
  · intro v i h
    simp [VOp.apply, MyVec.remove_of_ge v i h]
  · intro v i x h
    simp [VOp.apply, MyVec.index_set_of_ge v i x h]
  · intro v i x h
    exact ⟨_, MyVec.insert_of_gt v i x h⟩
  · intro v i h
    exact ⟨_, MyVec.remove_of_ge v i h⟩
  · intro v i x h
    exact ⟨_, MyVec.index_set_of_ge v i x h⟩

/-- Witness for C9 at a concrete input: a failed insert on the full
two-element buffer `[1, 2]` (capacity 2) changes nothing — in particular
no growth happens. -/
theorem C9_failed_bounds_check_atomic_witness :
    (VOp.insert 3 9).apply (⟨[1, 2], 2⟩ : MyVec Nat) = ⟨[1, 2], 2⟩ ∧
    (VOp.remove 2).apply (⟨[1, 2], 2⟩ : MyVec Nat) = ⟨[1, 2], 2⟩ ∧
    (VOp.set 2 9).apply (⟨[1, 2], 2⟩ : MyVec Nat) = ⟨[1, 2], 2⟩ :=
  ⟨(@C9_failed_bounds_check_atomic Nat).1 ⟨[1, 2], 2⟩ 3 9 (by decide),
    (@C9_failed_bounds_check_atomic Nat).2.1 ⟨[1, 2], 2⟩ 2 (by decide),
    (@C9_failed_bounds_check_atomic Nat).2.2.1 ⟨[1, 2], 2⟩ 2 9 (by decide)⟩

/-- C2: the consuming iterator produces the buffer's elements in order;
once exhausted it returns `None` on every subsequent call (the state no
longer changes); and when it is discarded after only `k` of the elements
were consumed, its drop glue destroys exactly the unproduced elements in
`[cursor, length)`, so produced and destroyed elements together are
exactly the original sequence — every element's destructor fires exactly
once, none is leaked and none is destroyed twice. -/
theorem C2_into_iter_no_leak_no_double_drop {α : Type u} :
    (∀ (v : MyVec α) (k : Nat) (hk : k < v.len),
        (((v.into_iter).consumeN k).2.next).1 = some (v.data.get ⟨k, hk⟩)) ∧
    (∀ v : MyVec α, ((v.into_iter).consumeN v.len).1 = v.data) ∧
    (∀ it : MyVecIntoIter α, it.elems.length ≤ it.index →
        it.next = (none, it)) ∧
    (∀ v : MyVec α,
        (((v.into_iter).consumeN v.len).2).next =
          (none, ((v.into_iter).consumeN v.len).2)) ∧
    (∀ (v : MyVec α) (k : Nat), k ≤ v.len →
        ((v.into_iter).consumeN k).1 = v.data.take k ∧
        ((v.into_iter).consumeN k).2.dropped = v.data.drop k ∧
        ((v.into_iter).consumeN k).1 ++
          ((v.into_iter).consumeN k).2.dropped = v.data ∧
        ((v.into_iter).consumeN k).1.length = k ∧
        ((v.into_iter).consumeN k).2.dropped.length = v.len - k) := by
  have key : ∀ (v : MyVec α) (k : Nat), k ≤ v.data.length →
      (v.into_iter).consumeN k =
        (v.data.take k, ⟨v.data, v.capacity, k⟩) := by
    intro v k hk
    have hs := consumeN_spec k v.into_iter (by simpa [MyVec.into_iter] using hk)
    simpa [MyVec.into_iter] using hs
  refine ⟨?_, ?_, next_exhausted, ?_, ?_⟩
  · intro v k hk
    rw [key v k (le_of_lt hk)]
    rw [MyVecIntoIter.next, dif_pos (by exact hk)]
  · intro v
    rw [key v v.len le_rfl]
    exact List.take_length v.data
  · intro v
    rw [key v v.len le_rfl]
    exact next_exhausted _ le_rfl
  · intro v k hk
    rw [key v k hk]
    refine ⟨rfl, rfl, List.take_append_drop k v.data, ?_, ?_⟩
    · simpa [MyVecIntoIter.dropped] using Nat.min_eq_left hk
    · simp [MyVecIntoIter.dropped, MyVec.len]

/-- Witness for C2 at a concrete input: consuming 1 of the 3 elements of
`[1, 2, 3]`, then discarding, destroys exactly `[2, 3]`. -/
theorem C2_into_iter_no_leak_no_double_drop_witness :
    ((((⟨[1, 2, 3], 4⟩ : MyVec Nat).into_iter).consumeN 1).2.next).1 =
      some 2 ∧
    (((⟨[1, 2, 3], 4⟩ : MyVec Nat).into_iter).consumeN 1).1 = [1] ∧
    (((⟨[1, 2, 3], 4⟩ : MyVec Nat).into_iter).consumeN 1).2.dropped =
      [2, 3] ∧
    (((⟨[1, 2, 3], 4⟩ : MyVec Nat).into_iter).consumeN 1).1 ++
      (((⟨[1, 2, 3], 4⟩ : MyVec Nat).into_iter).consumeN 1).2.dropped =
        [1, 2, 3] :=
  ⟨(@C2_into_iter_no_leak_no_double_drop Nat).1 ⟨[1, 2, 3], 4⟩ 1 (by decide),
    ((@C2_into_iter_no_leak_no_double_drop Nat).2.2.2.2 ⟨[1, 2, 3], 4⟩ 1
      (by decide)).1,
    ((@C2_into_iter_no_leak_no_double_drop Nat).2.2.2.2 ⟨[1, 2, 3], 4⟩ 1
      (by decide)).2.1,
    ((@C2_into_iter_no_leak_no_double_drop Nat).2.2.2.2 ⟨[1, 2, 3], 4⟩ 1
      (by decide)).2.2.1⟩

/-- C6: `new` and `with_capacity` establish `length ≤ capacity`, and every
mutating public operation (push, pop, insert, remove, clear,
shrink_to_fit, indexed write) preserves it, on the success branch and on
the panic branch alike. -/
theorem C6_length_le_capacity_invariant {α : Type u} :
    (MyVec.new : MyVec α).len ≤ (MyVec.new : MyVec α).capacity ∧
    (∀ c : Nat, (MyVec.with_capacity c : MyVec α).len ≤
      (MyVec.with_capacity c : MyVec α).capacity) ∧
    (∀ (v : MyVec α) (op : VOp α), v.len ≤ v.capacity →
      (op.apply v).len ≤ (op.apply v).capacity) := by
  refine ⟨Nat.le_refl 0, ?_, ?_⟩
  · intro c
    by_cases h : c = 0 <;> simp [MyVec.with_capacity, MyVec.new, MyVec.len, h]
  · intro v op hinv
    simp only [MyVec.len] at hinv
    cases op with
    | push x =>
      have hc := MyVec.push_capacity v x
      simp only [VOp.apply, MyVec.len, MyVec.push_data, hc,
        List.length_append, List.length_cons, List.length_nil]
      by_cases h : v.data.length = v.capacity
      · by_cases h0 : v.capacity = 0 <;> simp [h, h0] <;> try omega
      · simp [h]
        omega
    | pop =>
      simp only [VOp.apply, MyVec.pop, MyVec.len]
      by_cases h : v.data.length = 0
      · simpa [h] using hinv
      · simp [h, List.length_dropLast]
        omega
    | insert i x =>
      by_cases hgt : i > v.len
      · simp [VOp.apply, MyVec.insert_of_gt v i x hgt]
        simpa [MyVec.len] using hinv
      · have hle : i ≤ v.data.length := Nat.not_lt.1 hgt
        simp only [VOp.apply, MyVec.insert_of_le v i x (Nat.not_lt.1 hgt)]
        simp only [MyVec.len, MyVec.grow_if_needed_capacity,
          splice_length v.data x i hle]
        by_cases h : v.data.length = v.capacity
        · by_cases h0 : v.capacity = 0 <;> simp [MyVec.len, h, h0] <;>
            try omega
        · simp [MyVec.len, h]
          omega
    | remove i =>
      by_cases hge : i ≥ v.len
      · simp [VOp.apply, MyVec.remove_of_ge v i hge]
        simpa [MyVec.len] using hinv
      · have hlt : i < v.data.length := Nat.not_le.1 hge
        simp only [VOp.apply, MyVec.remove_of_lt v i (Nat.not_le.1 hge)]
        simp only [MyVec.len, List.length_append, List.length_take,
          List.length_drop]
        omega
    | clear =>
      simp [VOp.apply, clear_eq, MyVec.len]
    | shrink =>
      simp only [VOp.apply, MyVec.shrink_to_fit, MyVec.len]
      by_cases h1 : v.capacity = v.data.length
      · simpa [h1] using hinv
      · by_cases h2 : v.data.length = 0
        · by_cases h3 : v.capacity = 0 <;> simp [h1, h2, h3]
        · simp [h1, h2]
    | set i x =>
      by_cases hge : i ≥ v.len
      · simp [VOp.apply, MyVec.index_set_of_ge v i x hge]
        simpa [MyVec.len] using hinv
      · simp only [VOp.apply, MyVec.index_set_of_lt v i x (Nat.not_le.1 hge)]
        simpa [MyVec.len, List.length_set] using hinv

/-- Witness for C6 at concrete inputs: pushing onto a full buffer and
inserting out of bounds both preserve `length ≤ capacity`. -/
theorem C6_length_le_capacity_invariant_witness :
    ((VOp.push 5).apply (⟨[1], 1⟩ : MyVec Nat)).len ≤
      ((VOp.push 5).apply (⟨[1], 1⟩ : MyVec Nat)).capacity ∧
    ((VOp.insert 9 5).apply (⟨[1], 1⟩ : MyVec Nat)).len ≤
      ((VOp.insert 9 5).apply (⟨[1], 1⟩ : MyVec Nat)).capacity :=
  ⟨(@C6_length_le_capacity_invariant Nat).2.2 ⟨[1], 1⟩ (VOp.push 5)
      (by decide),
    (@C6_length_le_capacity_invariant Nat).2.2 ⟨[1], 1⟩ (VOp.insert 9 5)
      (by decide)⟩

/-- C8: cloning the buffer at a live handle writes a deep copy (same
element sequence) to a fresh handle; afterwards any sequence of mutating
operations run on the original leaves the clone's buffer untouched, and
any sequence run on the clone leaves the original untouched. -/
theorem C8_clone_independently_mutable {α : Type u} (s : Store α) (h : Nat)
    (hh : h < s.next) :
    (s.cloneAt h).1 ≠ h ∧
    ((s.cloneAt h).2.mem (s.cloneAt h).1).data = (s.mem h).data ∧
    (∀ ops : List (VOp α),
        ((s.cloneAt h).2.runAt h ops).mem (s.cloneAt h).1 =
          (s.cloneAt h).2.mem (s.cloneAt h).1) ∧
    (∀ ops : List (VOp α),
        ((s.cloneAt h).2.runAt (s.cloneAt h).1 ops).mem h =
          (s.cloneAt h).2.mem h) := by
  have hne : s.next ≠ h := ne_of_gt hh
  refine ⟨hne, ?_, ?_, ?_⟩
  · simp [Store.cloneAt, clone_eq]
  · intro ops
    exact runAt_mem_ne ops _ h (s.cloneAt h).1 hne
  · intro ops
    exact runAt_mem_ne ops _ (s.cloneAt h).1 h (Ne.symm hne)

/-- Witness for C8 at a concrete input: a one-buffer store holding
`[3, 4]`, cloned, then a push applied to the original does not change the
clone. -/
theorem C8_clone_independently_mutable_witness :
    ((⟨1, fun _ => (⟨[3, 4], 8⟩ : MyVec Nat)⟩ : Store Nat).cloneAt 0).1 ≠ 0 ∧
    (((⟨1, fun _ => (⟨[3, 4], 8⟩ : MyVec Nat)⟩ : Store Nat).cloneAt 0).2.runAt 0
        [VOp.push 9]).mem
      ((⟨1, fun _ => (⟨[3, 4], 8⟩ : MyVec Nat)⟩ : Store Nat).cloneAt 0).1 =
      ((⟨1, fun _ => (⟨[3, 4], 8⟩ : MyVec Nat)⟩ : Store Nat).cloneAt 0).2.mem
        ((⟨1, fun _ => (⟨[3, 4], 8⟩ : MyVec Nat)⟩ : Store Nat).cloneAt 0).1 :=
  ⟨(C8_clone_independently_mutable
      (⟨1, fun _ => (⟨[3, 4], 8⟩ : MyVec Nat)⟩ : Store Nat) 0 (by decide)).1,
    (C8_clone_independently_mutable
      (⟨1, fun _ => (⟨[3, 4], 8⟩ : MyVec Nat)⟩ : Store Nat) 0
        (by decide)).2.2.1 [VOp.push 9]⟩
